import Mathlib

/-!
Verification of the POSIX-ACL → NFSv4-ACL migration tool
(`app/acl_migration_tool.py`), shallowly embedded in Lean 4.

Strings are modelled as `List Char`, floating-point mtimes as `ℚ`,
the SQLite ledger as an association list keyed by source path, and
every external process invocation as an oracle recorded in a trace.
-/

namespace ACLMigration

/-- One extended (named) ACL entry, as parsed from the query tool's
`user:<name>:<perms>` / `group:<name>:<perms>` lines. -/
structure NamedAclEntry where
  name : List Char
  perms : List Char
deriving DecidableEq

/-- The structured ACL set built by `get_posix_acl` (the Python dict with
keys owner / group_owner / user / group / mask / other). -/
structure AclSet where
  owner_name : List Char
  owner_perms : Option (List Char)
  group_owner_name : List Char
  group_owner_perms : Option (List Char)
  user : List NamedAclEntry
  group : List NamedAclEntry
  mask : Option (List Char)
  other : Option (List Char)
deriving DecidableEq

/-- Tool configuration (the constructor arguments that the per-file
workflow consults). -/
structure Config where
  incremental : Bool
  migrate_ownership : Bool
  domain : Option (List Char)

/-- Python truthiness of the `domain` option: `None` and `""` are falsy. -/
def domainTruthy : Option (List Char) → Bool
  | none => false
  | some d => !d.isEmpty

/-- The string value of the domain option (only consulted when truthy). -/
def domainChars : Option (List Char) → List Char
  | none => []
  | some d => d

/-- `posix_to_nfs4_perms` (inner function of `convert_posix_to_nfs4`):
`'---'` maps to the empty string, otherwise the characters `r`, `w`, `x`
present in the input are concatenated in that fixed order.  The
directory flag is accepted and ignored, as in the source. -/
def posix_to_nfs4_perms (posix_perms : List Char) (_is_directory : Bool) : List Char :=
  if posix_perms = ['-', '-', '-'] then []
  else
    (if 'r' ∈ posix_perms then ['r'] else []) ++
    (if 'w' ∈ posix_perms then ['w'] else []) ++
    (if 'x' ∈ posix_perms then ['x'] else [])

/-- Characters allowed in a principal name: ASCII letters, digits, `_`, `-`
(Python `string.ascii_letters + string.digits + '_-'`). -/
def isValidNameChar (c : Char) : Bool :=
  c.isAlpha || c.isDigit || c = '_' || c = '-'

/-- `is_valid_name` (inner function of `convert_posix_to_nfs4`): rejects
empty names, purely numeric names, and names with characters outside
`[A-Za-z0-9_-]`. -/
def is_valid_name (name : List Char) : Bool :=
  if name.isEmpty then false
  else if name.all Char.isDigit then false
  else name.all isValidNameChar

/-- Domain qualification of a principal name:
`f"{name}@{self.domain}" if self.domain else name`. -/
def qualifyName (domain : Option (List Char)) (name : List Char) : List Char :=
  if domainTruthy domain then name ++ '@' :: domainChars domain else name

/-- Body of the user loop of `convert_posix_to_nfs4`: skip invalid names,
qualify with the domain, map the permissions, and emit
`A::<principal>:<perms>` when the mapped permissions are non-empty. -/
def translateUserEntry (domain : Option (List Char)) (isDir : Bool)
    (e : NamedAclEntry) : Option (List Char) :=
  if !is_valid_name e.name then none
  else
    let full_name := qualifyName domain e.name
    let nfs4_perms := posix_to_nfs4_perms e.perms isDir
    if nfs4_perms.isEmpty then none
    else some ('A' :: ':' :: ':' :: (full_name ++ ':' :: nfs4_perms))

/-- Body of the group loop of `convert_posix_to_nfs4`: as for users but
emitting `A:g:<principal>:<perms>`. -/
def translateGroupEntry (domain : Option (List Char)) (isDir : Bool)
    (e : NamedAclEntry) : Option (List Char) :=
  if !is_valid_name e.name then none
  else
    let full_name := qualifyName domain e.name
    let nfs4_perms := posix_to_nfs4_perms e.perms isDir
    if nfs4_perms.isEmpty then none
    else some ('A' :: ':' :: 'g' :: ':' :: (full_name ++ ':' :: nfs4_perms))

/-- `convert_posix_to_nfs4`: translate the extended user entries in source
order, then the extended group entries in source order (owner,
group-owner, mask, other are never translated). -/
def convert_posix_to_nfs4 (domain : Option (List Char)) (isDir : Bool)
    (posix_acl : AclSet) : List (List Char) :=
  posix_acl.user.filterMap (translateUserEntry domain isDir) ++
  posix_acl.group.filterMap (translateGroupEntry domain isDir)

/-! ### The destination-entry validator (`_validate_nfs4_acl`)

The source validates with the Python regex `^[AD]:[fg]?:[^:]*:[rwaDxtTnNcy]*$`
(via `re.match`).  The functions below are a deterministic executable parse
of that pattern; Python's `$` also matches just before a single trailing
newline, which `permsSectionOk` reproduces. -/

/-- The permission alphabet of the validator's regex, `[rwaDxtTnNcy]`. -/
def nfs4PermChars : List Char := ['r', 'w', 'a', 'D', 'x', 't', 'T', 'n', 'N', 'c', 'y']

/-- Membership in the validator's permission-character class. -/
def isNfs4PermChar (c : Char) : Bool := decide (c ∈ nfs4PermChars)

/-- Split a string at its first `:`; `none` when no `:` occurs.  This is the
(unique) way `[^:]*:` can consume a prefix of the remainder. -/
def splitAtColon : List Char → Option (List Char × List Char)
  | [] => none
  | c :: rest =>
    if c = ':' then some ([], rest)
    else (splitAtColon rest).map (fun p => (c :: p.1, p.2))

/-- Consume `[fg]?:` at the front of the string (deterministic: an empty
flag field is only possible when the next character is already `:`). -/
def afterFlags : List Char → Option (List Char)
  | [] => none
  | [c] => if c = ':' then some [] else none
  | c :: c2 :: rest =>
    if c = ':' then some (c2 :: rest)
    else if (c = 'f' || c = 'g') && c2 = ':' then some rest
    else none

/-- Match `[rwaDxtTnNcy]*$` under Python semantics: permission characters
optionally followed by one final newline. -/
def permsSectionOk : List Char → Bool
  | [] => true
  | c :: rest =>
    if rest.isEmpty && c = '\n' then true
    else isNfs4PermChar c && permsSectionOk rest

/-- `_validate_nfs4_acl`: structural validation of a produced entry against
`^[AD]:[fg]?:[^:]*:[rwaDxtTnNcy]*$`. -/
def validate_nfs4_acl (acl : List Char) : Bool :=
  match acl with
  | [] => false
  | [_] => false
  | t :: c1 :: rest =>
    (t = 'A' || t = 'D') && (c1 = ':') &&
    (match afterFlags rest with
     | none => false
     | some afterFlagsRest =>
       match splitAtColon afterFlagsRest with
       | none => false
       | some p => permsSectionOk p.2)

/-- Spec-side reading of the validator's pattern
`^[AD]:[fg]?:[^:]*:[rwaDxtTnNcy]*$` (with Python's `$`, which also accepts
one trailing newline): the string decomposes into type, optional flag,
colon-free principal and permission characters. -/
def matchesAcePattern (s : List Char) : Prop :=
  ∃ (t : Char) (flags principal perms tail : List Char),
    s = t :: ':' :: (flags ++ ':' :: (principal ++ ':' :: (perms ++ tail))) ∧
    (t = 'A' ∨ t = 'D') ∧
    (flags = [] ∨ flags = ['f'] ∨ flags = ['g']) ∧
    (∀ c ∈ principal, c ≠ ':') ∧
    (∀ c ∈ perms, c ∈ nfs4PermChars) ∧
    (tail = [] ∨ tail = ['\n'])

/-! ### ACL acquisition (`get_posix_acl`)

The query primitive's exit status and standard output are modelled as
oracle inputs; the parsing of the output lines follows the source's regex
`(user|group|mask|other):([^:]*):([rwx-]+)` (an unanchored `re.match`,
i.e. a prefix match: trailing junk after the permission run is ignored,
and non-matching lines are silently skipped). -/

/-- ASCII whitespace stripped by Python's `str.strip()`. -/
def isStripChar (c : Char) : Bool :=
  c = ' ' || c = '\t' || c = '\n' || c = '\r' || c = Char.ofNat 11 || c = Char.ofNat 12

/-- Python `line.strip()`. -/
def pyStrip (s : List Char) : List Char :=
  ((s.dropWhile isStripChar).reverse.dropWhile isStripChar).reverse

/-- Characters of the `[rwx-]` class. -/
def isRwxDashChar (c : Char) : Bool :=
  c = 'r' || c = 'w' || c = 'x' || c = '-'

/-- The four entry types recognised by the acquisition regex. -/
inductive AclLineType where
  | user | group | mask | other
deriving DecidableEq

/-- Strip a literal prefix from a list, or fail. -/
def dropLiteral : List Char → List Char → Option (List Char)
  | [], s => some s
  | _ :: _, [] => none
  | p :: ps, c :: cs => if p = c then dropLiteral ps cs else none

/-- Match `(user|group|mask|other):` at the start of a line. -/
def parseLineType (line : List Char) : Option (AclLineType × List Char) :=
  match dropLiteral ('u' :: 's' :: 'e' :: 'r' :: [':']) line with
  | some rest => some (AclLineType.user, rest)
  | none =>
    match dropLiteral ('g' :: 'r' :: 'o' :: 'u' :: 'p' :: [':']) line with
    | some rest => some (AclLineType.group, rest)
    | none =>
      match dropLiteral ('m' :: 'a' :: 's' :: 'k' :: [':']) line with
      | some rest => some (AclLineType.mask, rest)
      | none =>
        match dropLiteral ('o' :: 't' :: 'h' :: 'e' :: 'r' :: [':']) line with
        | some rest => some (AclLineType.other, rest)
        | none => none

/-- Match the whole acquisition regex against a (stripped) line: type,
colon-free name, then a non-empty run of `[rwx-]` characters (any
remaining characters are ignored, as the regex is not end-anchored). -/
def parseAclLine (line : List Char) : Option (AclLineType × List Char × List Char) :=
  match parseLineType line with
  | none => none
  | some (t, rest) =>
    match splitAtColon rest with
    | none => none
    | some (name, afterName) =>
      let perms := afterName.takeWhile isRwxDashChar
      if perms.isEmpty then none else some (t, name, perms)

/-- Loop body of `get_posix_acl`: skip blank and `#` lines, parse the rest,
and place matches into the structured ACL set (an empty name on a
`user`/`group` line is the owning user/group record). -/
def processAclLine (acc : AclSet) (rawLine : List Char) : AclSet :=
  let line := pyStrip rawLine
  if line.isEmpty then acc
  else if line.headD ' ' = '#' then acc
  else
    match parseAclLine line with
    | none => acc
    | some (t, name, perms) =>
      match t with
      | AclLineType.user =>
        if name.isEmpty then { acc with owner_perms := some perms }
        else { acc with user := acc.user ++ [⟨name, perms⟩] }
      | AclLineType.group =>
        if name.isEmpty then { acc with group_owner_perms := some perms }
        else { acc with group := acc.group ++ [⟨name, perms⟩] }
      | AclLineType.mask => { acc with mask := some perms }
      | AclLineType.other => { acc with other := some perms }

/-- `get_posix_acl`: `none` when the query primitive exits non-zero (the
`CalledProcessError` handler); otherwise the structured ACL set built
from the output lines, with ownership names from the stat/lookup step. -/
def get_posix_acl (queryExitOk : Bool) (outputLines : List (List Char))
    (ownerName groupName : List Char) : Option AclSet :=
  if !queryExitOk then none
  else some (outputLines.foldl processAclLine
    { owner_name := ownerName, owner_perms := none,
      group_owner_name := groupName, group_owner_perms := none,
      user := [], group := [], mask := none, other := none })

/-! ### The ledger fingerprint (`json.dumps(posix_acl, sort_keys=True)`) -/

/-- Lower-case hexadecimal digit. -/
def hexDigit (n : Nat) : Char :=
  if n < 10 then Char.ofNat ('0'.toNat + n) else Char.ofNat ('a'.toNat + (n - 10))

/-- A `\uXXXX` escape for a 16-bit code unit. -/
def jsonEscU (n : Nat) : List Char :=
  '\\' :: 'u' :: [hexDigit (n / 4096 % 16), hexDigit (n / 256 % 16),
                  hexDigit (n / 16 % 16), hexDigit (n % 16)]

/-- Escape one character as Python's `json.dumps` does with `ensure_ascii`
(the default): short escapes, `\uXXXX` for other control and non-ASCII
characters, surrogate pairs above the BMP. -/
def jsonEscapeChar (c : Char) : List Char :=
  let n := c.toNat
  if c = '"' then ['\\', '"']
  else if c = '\\' then ['\\', '\\']
  else if c = '\n' then ['\\', 'n']
  else if c = '\t' then ['\\', 't']
  else if c = '\r' then ['\\', 'r']
  else if n = 8 then ['\\', 'b']
  else if n = 12 then ['\\', 'f']
  else if n < 32 then jsonEscU n
  else if n < 127 then [c]
  else if n < 65536 then jsonEscU n
  else jsonEscU (55296 + (n - 65536) / 1024) ++ jsonEscU (56320 + (n - 65536) % 1024)

/-- JSON string literal. -/
def jsonStr (s : List Char) : List Char :=
  '"' :: (s.flatMap jsonEscapeChar ++ ['"'])

/-- JSON rendering of an optional string (`None` → `null`). -/
def jsonOptStr : Option (List Char) → List Char
  | none => 'n' :: 'u' :: 'l' :: ['l']
  | some s => jsonStr s

/-- Join with a separator. -/
def joinSep (sep : List Char) : List (List Char) → List Char
  | [] => []
  | [x] => x
  | x :: xs => x ++ sep ++ joinSep sep (xs)

/-- JSON object with the given (already ordered) fields, using the default
`json.dumps` separators. -/
def jsonObj (fields : List (List Char × List Char)) : List Char :=
  Char.ofNat 123 ::
    (joinSep [',', ' '] (fields.map (fun f => jsonStr f.1 ++ ':' :: ' ' :: f.2)) ++
     [Char.ofNat 125])

/-- JSON array. -/
def jsonArr (items : List (List Char)) : List Char :=
  '[' :: (joinSep [',', ' '] items ++ [']'])

/-- JSON rendering of one `{'name': ..., 'perms': ...}` entry (keys in
sorted order). -/
def jsonNamedEntry (e : NamedAclEntry) : List Char :=
  jsonObj [(['n', 'a', 'm', 'e'], jsonStr e.name),
           (['p', 'e', 'r', 'm', 's'], jsonStr e.perms)]

/-- JSON rendering of the owner / group-owner sub-dict, whose `perms` may
be `None`. -/
def jsonOwnerEntry (name : List Char) (perms : Option (List Char)) : List Char :=
  jsonObj [(['n', 'a', 'm', 'e'], jsonStr name),
           (['p', 'e', 'r', 'm', 's'], jsonOptStr perms)]

/-- `json.dumps(posix_acl, sort_keys=True)`: the acquired ACL dict with its
six keys in sorted order (`group`, `group_owner`, `mask`, `other`,
`owner`, `user`). -/
def jsonDumpsAcl (a : AclSet) : List Char :=
  jsonObj
    [("group".data, jsonArr (a.group.map jsonNamedEntry)),
     ("group_owner".data, jsonOwnerEntry a.group_owner_name a.group_owner_perms),
     ("mask".data, jsonOptStr a.mask),
     ("other".data, jsonOptStr a.other),
     ("owner".data, jsonOwnerEntry a.owner_name a.owner_perms),
     ("user".data, jsonArr (a.user.map jsonNamedEntry))]

/-- `acl_hash`: `json.dumps(posix_acl, sort_keys=True) if posix_acl else ""`
(the acquired dict is never empty, so truthiness is just non-`None`). -/
def acl_hash_of : Option AclSet → List Char
  | none => []
  | some a => jsonDumpsAcl a

/-! ### The migration ledger (SQLite table `migrated_files`) -/

/-- One row of the `migrated_files` table (the timestamp column is a
store-side default and not modelled). -/
structure MigrationRecord where
  dest_path : List Char
  mtime : ℚ
  acl_hash : List Char
  status : List Char
deriving DecidableEq

/-- The ledger: rows keyed by `source_path` (the primary key). -/
abbrev Ledger := List (List Char × MigrationRecord)

/-- `SELECT ... WHERE source_path = ?` with `fetchone`. -/
def ledgerLookup : Ledger → List Char → Option MigrationRecord
  | [], _ => none
  | (k, r) :: rest, key => if k = key then some r else ledgerLookup rest key

/-- `INSERT OR REPLACE` keyed by `source_path`. -/
def ledgerUpsert : Ledger → List Char → MigrationRecord → Ledger
  | [], key, r => [(key, r)]
  | (k, r0) :: rest, key, r =>
    if k = key then (key, r) :: rest else (k, r0) :: ledgerUpsert rest key r

/-- The status strings written by the workflow. -/
def successStatus : List Char := "success".data

/-- The failure status string. -/
def failedStatus : List Char := "failed".data

/-- `_is_already_migrated`: false outside incremental mode; otherwise true
exactly when a row for the path exists with status `success` and a stored
mtime within `0.001` of the given one. -/
def is_already_migrated (incremental : Bool) (ledger : Ledger)
    (source_path : List Char) (mtime : ℚ) : Bool :=
  if !incremental then false
  else
    match ledgerLookup ledger source_path with
    | none => false
    | some r =>
      if r.status = successStatus then
        decide (|r.mtime - mtime| < 1 / 1000)
      else false

/-- `_record_migration`: upsert of the row for `source_path`. -/
def record_migration (ledger : Ledger) (source_path dest_path : List Char)
    (mtime : ℚ) (acl_hash status : List Char) : Ledger :=
  ledgerUpsert ledger source_path ⟨dest_path, mtime, acl_hash, status⟩

/-! ### External mutation calls and the appliers -/

/-- An external mutation invocation issued by the per-file workflow:
`nfs4_setfacl -a <entry> <dest>` or `chown <owner>:<group> <dest>`. -/
inductive ExtCall where
  | setfacl (entry : List Char)
  | chown
deriving DecidableEq

/-- `_apply_acl_individually`: invoke the mutation primitive once per entry
in order; stop at the first non-zero exit and return failure.  The second
component is the trace of entries actually passed to the primitive. -/
def apply_acl_individually (applyOk : List Char → Bool) :
    List (List Char) → Bool × List (List Char)
  | [] => (true, [])
  | acl :: rest =>
    if applyOk acl then
      let r := apply_acl_individually applyOk rest
      (r.1, acl :: r.2)
    else (false, [acl])

/-- `apply_nfs4_acl`: an empty list is a no-op success; otherwise every
entry is validated first (any malformed entry aborts with failure before
any external call), then entries are applied one at a time. -/
def apply_nfs4_acl (applyOk : List Char → Bool) (nfs4_acls : List (List Char)) :
    Bool × List (List Char) :=
  if nfs4_acls.isEmpty then (true, [])
  else if nfs4_acls.all validate_nfs4_acl then
    apply_acl_individually applyOk nfs4_acls
  else (false, [])

/-- `migrate_file_ownership` as seen from the workflow: no call when source
and destination uid/gid already match, otherwise one `chown` call whose
exit status decides the result (all exceptions are caught inside and
become `false`). -/
def migrate_file_ownership (ownershipNeeded chownOk : Bool) : Bool × List ExtCall :=
  if !ownershipNeeded then (true, [])
  else (chownOk, [ExtCall.chown])

/-! ### The per-file workflow (`migrate_file_acl`) -/

/-- The oracle environment of one per-file task: everything the workflow
learns from the filesystem and the external primitives.  The two
`Except` fields model operations that may raise (`Path.exists` /
`Path.stat`), carrying the exception text. -/
structure WorkEnv where
  sourcePath : List Char
  destPath : List Char
  isDir : Bool
  destExists : Except (List Char) Bool
  sourceMtime : Except (List Char) ℚ
  ownershipNeeded : Bool
  chownOk : Bool
  queryExitOk : Bool
  aclOutputLines : List (List Char)
  ownerName : List Char
  groupName : List Char
  applyOk : List Char → Bool

/-- The message returned when the destination path does not exist. -/
def destMissingMsg : List Char := "目标文件不存在".data

/-- The message returned on an incremental skip. -/
def skippedMsg : List Char := "已迁移(跳过)".data

/-- The message returned on success with nothing to migrate. -/
def nothingToMigrateMsg : List Char := "无需迁移".data

/-- The success-message fragment for the ownership component. -/
def ownershipWord : List Char := "所有权".data

/-- Success message: `成功迁移: <components>` or `无需迁移`. -/
def successMessage (migrateOwnership ownershipOk aclOk : Bool) (aclCount : ℕ) : List Char :=
  let messages :=
    (if migrateOwnership && ownershipOk then [ownershipWord] else []) ++
    (if decide (aclCount > 0) && aclOk then
        [(Nat.repr aclCount).data ++ "个ACL条目".data] else [])
  if messages.isEmpty then nothingToMigrateMsg
  else "成功迁移: ".data ++ joinSep [',', ' '] messages

/-- Failure message: `迁移失败: <failed components>`. -/
def failureMessage (migrateOwnership ownershipOk aclOk : Bool) : List Char :=
  let failed_items :=
    (if migrateOwnership && !ownershipOk then [ownershipWord] else []) ++
    (if !aclOk then ['A' :: 'C' :: ['L']] else [])
  "迁移失败: ".data ++ joinSep [',', ' '] failed_items

/-- The result of one per-file task: the `(path, success, message)` outcome
tuple, the ledger after the task, and the trace of external mutation
calls issued for the file. -/
structure TaskResult where
  outcome : List Char × Bool × List Char
  ledger : Ledger
  calls : List ExtCall
deriving DecidableEq

/-- The straight-line section of `migrate_file_acl` that runs once the
destination exists, the mtime has been read, and the skip check said no:
ownership step, acquisition, translation, application, ledger upsert and
message construction. -/
def migrate_attempt (cfg : Config) (env : WorkEnv) (ledger : Ledger)
    (source_mtime : ℚ) : TaskResult :=
  let ownershipStep :=
    if cfg.migrate_ownership then
      migrate_file_ownership env.ownershipNeeded env.chownOk
    else (true, [])
  let posix_acl :=
    get_posix_acl env.queryExitOk env.aclOutputLines env.ownerName env.groupName
  let aclStep :=
    match posix_acl with
    | none => (true, 0, [])
    | some a =>
      let nfs4_acls := convert_posix_to_nfs4 cfg.domain env.isDir a
      if nfs4_acls.isEmpty then (true, 0, [])
      else
        let applied := apply_nfs4_acl env.applyOk nfs4_acls
        (applied.1, nfs4_acls.length, applied.2.map ExtCall.setfacl)
  let acl_hash := acl_hash_of posix_acl
  let overall_success := ownershipStep.1 && aclStep.1
  let status := if overall_success then successStatus else failedStatus
  let ledger1 := record_migration ledger env.sourcePath env.destPath
    source_mtime acl_hash status
  let message :=
    if overall_success then
      successMessage cfg.migrate_ownership ownershipStep.1 aclStep.1 aclStep.2.1
    else failureMessage cfg.migrate_ownership ownershipStep.1 aclStep.1
  ⟨(env.sourcePath, overall_success, message), ledger1,
    ownershipStep.2 ++ aclStep.2.2⟩

/-- Body of `migrate_file_acl` (the code inside its `try`): destination
check, mtime read, incremental skip check, ownership step, acquisition,
translation, application, and the ledger upsert.  An `Except.error`
models an exception escaping the body. -/
def migrate_file_body (cfg : Config) (env : WorkEnv) (ledger : Ledger) :
    Except (List Char) (List Char × Bool × List Char) × Ledger × List ExtCall :=
  match env.destExists with
  | Except.error e => (Except.error e, ledger, [])
  | Except.ok destEx =>
    if !destEx then (Except.ok (env.sourcePath, false, destMissingMsg), ledger, [])
    else
      match env.sourceMtime with
      | Except.error e => (Except.error e, ledger, [])
      | Except.ok source_mtime =>
        if is_already_migrated cfg.incremental ledger env.sourcePath source_mtime then
          (Except.ok (env.sourcePath, true, skippedMsg), ledger, [])
        else
          let r := migrate_attempt cfg env ledger source_mtime
          (Except.ok r.outcome, r.ledger, r.calls)

/-- `migrate_file_acl`: the body wrapped in the catch-all handler that turns
any exception into a failed outcome carrying the exception text. -/
def migrate_file_acl (cfg : Config) (env : WorkEnv) (ledger : Ledger) : TaskResult :=
  match migrate_file_body cfg env ledger with
  | (Except.ok outcome, l, calls) => ⟨outcome, l, calls⟩
  | (Except.error e, l, calls) => ⟨(env.sourcePath, false, e), l, calls⟩

/-- The orchestration loop over the enumerated work list (rendered
sequentially): every file yields an outcome; no failure stops the run. -/
def run_migration (cfg : Config) : Ledger → List WorkEnv →
    List (List Char × Bool × List Char) × Ledger
  | ledger, [] => ([], ledger)
  | ledger, env :: rest =>
    let r := migrate_file_acl cfg env ledger
    let rs := run_migration cfg r.ledger rest
    (r.outcome :: rs.1, rs.2)

/-! ### The tree scan (`scan_files`)

The filesystem is modelled as a tree of named nodes; paths are lists of
components.  `os.walk` visits the root directory first and then each
subdirectory top-down; for every visited directory, `scan_files` appends
the paths of its child directories and then of its child files. -/

/-- A filesystem node: a file, or a directory with an ordered child list. -/
inductive FSTree where
  | file (name : List Char)
  | dir (name : List Char) (children : List FSTree)

/-- The name of a node. -/
def FSTree.nodeName : FSTree → List Char
  | FSTree.file n => n
  | FSTree.dir n _ => n

/-- Whether a node is a directory. -/
def FSTree.isDirNode : FSTree → Bool
  | FSTree.file _ => false
  | FSTree.dir _ _ => true

/-- The entries `scan_files` appends for one `os.walk` triple rooted at
`p`: child-directory paths in order, then child-file paths in order. -/
def walkEntries (p : List (List Char)) (children : List FSTree) :
    List (List (List Char)) :=
  (children.filter FSTree.isDirNode).map (fun c => p ++ [c.nodeName]) ++
  (children.filter (fun c => !c.isDirNode)).map (fun c => p ++ [c.nodeName])

mutual

/-- All entries `scan_files` collects from the `os.walk` of a node at path
`p` (the node's own path is never collected). -/
def scanWalk : List (List Char) → FSTree → List (List (List Char))
  | _, FSTree.file _ => []
  | p, FSTree.dir _ children => walkEntries p children ++ scanWalkChildren p children

/-- `os.walk` recursion into the children (files contribute nothing). -/
def scanWalkChildren : List (List Char) → List FSTree → List (List (List Char))
  | _, [] => []
  | p, c :: cs => scanWalk (p ++ [c.nodeName]) c ++ scanWalkChildren p cs

end

mutual

/-- Modelled from the spec: the paths of all nodes strictly below a node at
path `p` ("every file and every subdirectory strictly below the source
root"). -/
def strictDescendants : List (List Char) → FSTree → List (List (List Char))
  | _, FSTree.file _ => []
  | p, FSTree.dir _ children => strictDescList p children

/-- Strict descendants contributed by a child list: each child's own path
followed by its strict descendants. -/
def strictDescList : List (List Char) → List FSTree → List (List (List Char))
  | _, [] => []
  | p, c :: cs =>
    (p ++ [c.nodeName]) :: (strictDescendants (p ++ [c.nodeName]) c ++ strictDescList p cs)

end

/-- `scan_files`: a single source file yields exactly that file; a source
directory yields the `os.walk` collection. -/
def scan_files (sourcePath : List (List Char)) : FSTree → List (List (List Char))
  | FSTree.file _ => [sourcePath]
  | t@(FSTree.dir _ _) => scanWalk sourcePath t

/-! ## Theorems -/

/-- A dialect-A permission triple built from its three flags. -/
def permTriple (r w x : Bool) : List Char :=
  [if r then 'r' else '-', if w then 'w' else '-', if x then 'x' else '-']

/-- C6: over all 8 dialect-A triples (and both values of the ignored
directory flag), `posix_to_nfs4_perms` returns the concatenation, in the
fixed order `r` then `w` then `x`, of exactly the flags present; the
all-absent triple maps to the empty string; and every output character
occurs both among r, w, x and in the input triple. -/
theorem posix_to_nfs4_perms_characterisation :
    ∀ r w x isDir : Bool,
      posix_to_nfs4_perms (permTriple r w x) isDir =
        (if r then ['r'] else []) ++ (if w then ['w'] else []) ++
        (if x then ['x'] else []) ∧
      posix_to_nfs4_perms ['-', '-', '-'] isDir = [] ∧
      (posix_to_nfs4_perms (permTriple r w x) isDir).all
        (fun c => (['r', 'w', 'x'].contains c) && ((permTriple r w x).contains c)) = true := by
  decide

lemma splitAtColon_sound : ∀ (s p q : List Char),
    splitAtColon s = some (p, q) → s = p ++ ':' :: q ∧ ':' ∉ p := by
  intro s
  induction s with
  | nil => intro p q h; simp [splitAtColon] at h
  | cons c rest ih =>
    intro p q h
    rw [splitAtColon] at h
    by_cases hc : c = ':'
    · rw [if_pos hc] at h
      have h' := Option.some.inj h
      have hp : p = [] := (congrArg Prod.fst h').symm
      have hq : q = rest := (congrArg Prod.snd h').symm
      subst hp; subst hq; subst hc; simp
    · rw [if_neg hc] at h
      cases hrec : splitAtColon rest with
      | none => rw [hrec] at h; simp at h
      | some pr =>
        rw [hrec] at h
        simp only [Option.map_some'] at h
        have h' := Option.some.inj h
        have hp : p = c :: pr.1 := (congrArg Prod.fst h').symm
        have hq : q = pr.2 := (congrArg Prod.snd h').symm
        obtain ⟨hs, hni⟩ := ih pr.1 pr.2 hrec
        subst hp; subst hq
        refine ⟨by rw [hs]; rfl, ?_⟩
        intro hmem
        rcases List.mem_cons.mp hmem with h1 | h1
        · exact hc h1.symm
        · exact hni h1

lemma splitAtColon_complete : ∀ (p q : List Char), ':' ∉ p →
    splitAtColon (p ++ ':' :: q) = some (p, q) := by
  intro p
  induction p with
  | nil => intro q _; simp [splitAtColon]
  | cons c p' ih =>
    intro q hnotin
    have hc : ¬ c = ':' := fun h => hnotin (h ▸ List.mem_cons_self c p')
    have hnotin' : ':' ∉ p' := fun h => hnotin (List.mem_cons_of_mem c h)
    simp [splitAtColon, hc, ih q hnotin']

lemma permsSectionOk_sound : ∀ l : List Char, permsSectionOk l = true →
    ∃ perms tail, l = perms ++ tail ∧ (∀ c ∈ perms, c ∈ nfs4PermChars) ∧
      (tail = [] ∨ tail = ['\n']) := by
  intro l
  induction l with
  | nil => intro _; exact ⟨[], [], by simp, by simp, Or.inl rfl⟩
  | cons c rest ih =>
    intro h
    rw [permsSectionOk] at h
    by_cases hnl : rest.isEmpty && c = '\n'
    · rw [if_pos hnl] at h
      have hre : rest = [] := by
        have := (Bool.and_eq_true _ _).mp hnl
        exact List.isEmpty_iff.mp this.1
      have hcnl : c = '\n' := by
        have := (Bool.and_eq_true _ _).mp hnl
        exact of_decide_eq_true this.2
      subst hre; subst hcnl
      exact ⟨[], ['\n'], by simp, by simp, Or.inr rfl⟩
    · rw [if_neg hnl] at h
      have hc : isNfs4PermChar c = true := ((Bool.and_eq_true _ _).mp h).1
      have hrest := ((Bool.and_eq_true _ _).mp h).2
      obtain ⟨perms, tail, he, hmem, htail⟩ := ih hrest
      refine ⟨c :: perms, tail, by simp [he], ?_, htail⟩
      intro d hd
      rcases List.mem_cons.mp hd with hdc | hdp
      · subst hdc; exact of_decide_eq_true (by simpa [isNfs4PermChar] using hc)
      · exact hmem d hdp

lemma permsSectionOk_complete : ∀ (perms tail : List Char),
    (∀ c ∈ perms, c ∈ nfs4PermChars) → (tail = [] ∨ tail = ['\n']) →
    permsSectionOk (perms ++ tail) = true := by
  intro perms
  induction perms with
  | nil =>
    intro tail _ htail
    rcases htail with h | h <;> subst h <;> simp [permsSectionOk]
  | cons c perms' ih =>
    intro tail hmem htail
    have hc : c ∈ nfs4PermChars := hmem c (List.mem_cons_self c perms')
    rw [List.cons_append, permsSectionOk]
    by_cases hnl : (perms' ++ tail).isEmpty && c = '\n'
    · rw [if_pos hnl]
    · rw [if_neg hnl]
      have h1 : isNfs4PermChar c = true := by simp [isNfs4PermChar, hc]
      have h2 := ih tail (fun d hd => hmem d (List.mem_cons_of_mem c hd)) htail
      simp [h1, h2]

lemma afterFlags_colon (X : List Char) : afterFlags (':' :: X) = some X := by
  cases X with
  | nil => simp [afterFlags]
  | cons x xs => simp [afterFlags]

lemma afterFlags_fg (c : Char) (X : List Char) (h : c = 'f' ∨ c = 'g') :
    afterFlags (c :: ':' :: X) = some X := by
  rcases h with h | h <;> subst h <;> simp [afterFlags]

lemma afterFlags_sound : ∀ (r r2 : List Char), afterFlags r = some r2 →
    ∃ flags, (flags = [] ∨ flags = ['f'] ∨ flags = ['g']) ∧ r = flags ++ ':' :: r2 := by
  intro r r2 h
  match r with
  | [] => simp [afterFlags] at h
  | [c] =>
    rw [afterFlags] at h
    by_cases hc : c = ':'
    · rw [if_pos hc] at h
      subst hc
      obtain hr2 : ([] : List Char) = r2 := by simpa using h
      exact ⟨[], Or.inl rfl, by simp [← hr2]⟩
    · rw [if_neg hc] at h; exact absurd h (by simp)
  | c :: c2 :: rest =>
    rw [afterFlags] at h
    by_cases hc : c = ':'
    · rw [if_pos hc] at h
      subst hc
      obtain hr2 : c2 :: rest = r2 := by simpa using h
      exact ⟨[], Or.inl rfl, by simp [← hr2]⟩
    · rw [if_neg hc] at h
      by_cases hfg : (c = 'f' || c = 'g') && c2 = ':'
      · rw [if_pos hfg] at h
        obtain hr2 : rest = r2 := by simpa using h
        have hfg' := (Bool.and_eq_true _ _).mp hfg
        have hcfg : c = 'f' ∨ c = 'g' := by
          rcases (Bool.or_eq_true _ _).mp hfg'.1 with h1 | h1
          · exact Or.inl (of_decide_eq_true h1)
          · exact Or.inr (of_decide_eq_true h1)
        have hc2 : c2 = ':' := of_decide_eq_true hfg'.2
        subst hc2; subst hr2
        rcases hcfg with h1 | h1 <;> subst h1
        · exact ⟨['f'], Or.inr (Or.inl rfl), by simp⟩
        · exact ⟨['g'], Or.inr (Or.inr rfl), by simp⟩
      · rw [if_neg hfg] at h; exact absurd h (by simp)

/-- The validator accepts exactly the strings matching the spec's pattern
(with Python's end-of-string semantics). -/
lemma validate_nfs4_acl_iff (s : List Char) :
    validate_nfs4_acl s = true ↔ matchesAcePattern s := by
  constructor
  · intro h
    match s with
    | [] => simp [validate_nfs4_acl] at h
    | [_] => simp [validate_nfs4_acl] at h
    | t :: c1 :: rest =>
      rw [validate_nfs4_acl] at h
      have h1 := (Bool.and_eq_true _ _).mp h
      have h2 := (Bool.and_eq_true _ _).mp h1.1
      have ht : t = 'A' ∨ t = 'D' := by
        rcases (Bool.or_eq_true _ _).mp h2.1 with hh | hh
        · exact Or.inl (of_decide_eq_true hh)
        · exact Or.inr (of_decide_eq_true hh)
      have hc1 : c1 = ':' := of_decide_eq_true h2.2
      subst hc1
      have h3 := h1.2
      match haf : afterFlags rest with
      | none => simp only [haf] at h3; exact absurd h3 Bool.false_ne_true
      | some afr =>
        simp only [haf] at h3
        match hsp : splitAtColon afr with
        | none => simp only [hsp] at h3; exact absurd h3 Bool.false_ne_true
        | some p =>
          simp only [hsp] at h3
          obtain ⟨flags, hflags, hrest⟩ := afterFlags_sound rest afr haf
          obtain ⟨hafr, hnocolon⟩ := splitAtColon_sound afr p.1 p.2 hsp
          obtain ⟨perms, tail, hperm, hmem, htail⟩ := permsSectionOk_sound p.2 h3
          refine ⟨t, flags, p.1, perms, tail, ?_, ht, hflags, ?_, hmem, htail⟩
          · rw [hrest, hafr, hperm]
          · intro c hc hceq
            exact hnocolon (hceq ▸ hc)
  · rintro ⟨t, flags, principal, perms, tail, hs, ht, hflags, hprin, hmem, htail⟩
    subst hs
    rw [validate_nfs4_acl]
    have hb1 : (t = 'A' || t = 'D') = true := by
      rcases ht with h | h <;> subst h <;> simp
    have hnocolon : ':' ∉ principal := fun hmemc => hprin ':' hmemc rfl
    have hsp : splitAtColon (principal ++ ':' :: (perms ++ tail)) =
        some (principal, perms ++ tail) := splitAtColon_complete principal _ hnocolon
    have hpo : permsSectionOk (perms ++ tail) = true :=
      permsSectionOk_complete perms tail hmem htail
    have haf : afterFlags (flags ++ ':' :: (principal ++ ':' :: (perms ++ tail))) =
        some (principal ++ ':' :: (perms ++ tail)) := by
      rcases hflags with h | h | h <;> subst h
      · exact afterFlags_colon _
      · exact afterFlags_fg 'f' _ (Or.inl rfl)
      · exact afterFlags_fg 'g' _ (Or.inr rfl)
    simp only [haf, hsp]
    simp [hb1, hpo]

/-- C7: the entry validator accepts a string exactly when it matches
`^[AD]:[fg]?:[^:]*:[rwaDxtTnNcy]*$` (read with Python's `$`, which also
allows one trailing newline), and in particular it accepts
`A::peter:rwx` and `A:g:dev1@example.com:rw` and rejects `X::peter:rwx`
and `A:x:peter:rwx`. -/
theorem validate_nfs4_acl_characterisation :
    (∀ s : List Char, validate_nfs4_acl s = true ↔ matchesAcePattern s) ∧
    validate_nfs4_acl "A::peter:rwx".data = true ∧
    validate_nfs4_acl "A:g:dev1@example.com:rw".data = true ∧
    validate_nfs4_acl "X::peter:rwx".data = false ∧
    validate_nfs4_acl "A:x:peter:rwx".data = false :=
  ⟨validate_nfs4_acl_iff, by decide, by decide, by decide, by decide⟩

/-- Whether the translator keeps a named entry: valid name and non-empty
mapped permissions. -/
def keepEntry (isDir : Bool) (e : NamedAclEntry) : Bool :=
  is_valid_name e.name && !(posix_to_nfs4_perms e.perms isDir).isEmpty

/-- The destination entry emitted for a kept user entry. -/
def userAceString (domain : Option (List Char)) (isDir : Bool) (e : NamedAclEntry) : List Char :=
  'A' :: ':' :: ':' :: (qualifyName domain e.name ++ ':' :: posix_to_nfs4_perms e.perms isDir)

/-- The destination entry emitted for a kept group entry. -/
def groupAceString (domain : Option (List Char)) (isDir : Bool) (e : NamedAclEntry) : List Char :=
  'A' :: ':' :: 'g' :: ':' :: (qualifyName domain e.name ++ ':' :: posix_to_nfs4_perms e.perms isDir)

lemma translateUserEntry_eq (domain : Option (List Char)) (isDir : Bool) (e : NamedAclEntry) :
    translateUserEntry domain isDir e =
      if keepEntry isDir e then some (userAceString domain isDir e) else none := by
  unfold translateUserEntry keepEntry userAceString
  cases h1 : is_valid_name e.name <;>
    cases h2 : (posix_to_nfs4_perms e.perms isDir).isEmpty <;>
      simp [h1, h2]

lemma translateGroupEntry_eq (domain : Option (List Char)) (isDir : Bool) (e : NamedAclEntry) :
    translateGroupEntry domain isDir e =
      if keepEntry isDir e then some (groupAceString domain isDir e) else none := by
  unfold translateGroupEntry keepEntry groupAceString
  cases h1 : is_valid_name e.name <;>
    cases h2 : (posix_to_nfs4_perms e.perms isDir).isEmpty <;>
      simp [h1, h2]

lemma filterMap_guarded {α β : Type} (p : α → Bool) (g : α → β) (l : List α) :
    l.filterMap (fun e => if p e then some (g e) else none) = (l.filter p).map g := by
  induction l with
  | nil => rfl
  | cons a l ih =>
    by_cases h : p a <;> simp [List.filterMap_cons, List.filter_cons, h, ih]

/-- The claim's example source ACL with one named user `mary` with `rwx`. -/
def maryAcl : AclSet :=
  { owner_name := [], owner_perms := none, group_owner_name := [],
    group_owner_perms := none, user := [⟨"mary".data, "rwx".data⟩],
    group := [], mask := none, other := none }

/-- The claim's example source ACL with one named group `dev1` with `r--`. -/
def dev1Acl : AclSet :=
  { owner_name := [], owner_perms := none, group_owner_name := [],
    group_owner_perms := none, user := [],
    group := [⟨"dev1".data, "r--".data⟩], mask := none, other := none }

/-- C4: the translator emits exactly one `A::<name>:<perms>` entry per kept
named user entry and one `A:g:<name>:<perms>` per kept named group entry
(kept = name passes validation and mapped permissions are non-empty),
users in source order before groups in source order; the principal is
suffixed with `@<domain>` exactly when a non-empty domain is configured;
and the two concrete scenarios of the claim hold. -/
theorem convert_posix_to_nfs4_characterisation :
    ∀ (domain : Option (List Char)) (isDir : Bool) (acl : AclSet),
      convert_posix_to_nfs4 domain isDir acl =
        (acl.user.filter (keepEntry isDir)).map (userAceString domain isDir) ++
        (acl.group.filter (keepEntry isDir)).map (groupAceString domain isDir) ∧
      (∀ name, qualifyName none name = name) ∧
      (∀ d name, qualifyName (some d) name =
        if d.isEmpty then name else name ++ '@' :: d) ∧
      convert_posix_to_nfs4 (some "example.com".data) false maryAcl =
        ["A::mary@example.com:rwx".data] ∧
      convert_posix_to_nfs4 none false dev1Acl = ["A:g:dev1:r".data] := by
  intro domain isDir acl
  refine ⟨?_, ?_, ?_, by decide, by decide⟩
  · have hu : acl.user.filterMap (translateUserEntry domain isDir) =
        (acl.user.filter (keepEntry isDir)).map (userAceString domain isDir) := by
      have := filterMap_guarded (keepEntry isDir) (userAceString domain isDir) acl.user
      rw [← this]
      exact List.filterMap_congr (fun e _ => translateUserEntry_eq domain isDir e)
    have hg : acl.group.filterMap (translateGroupEntry domain isDir) =
        (acl.group.filter (keepEntry isDir)).map (groupAceString domain isDir) := by
      have := filterMap_guarded (keepEntry isDir) (groupAceString domain isDir) acl.group
      rw [← this]
      exact List.filterMap_congr (fun e _ => translateGroupEntry_eq domain isDir e)
    simp [convert_posix_to_nfs4, hu, hg]
  · intro name; simp [qualifyName, domainTruthy]
  · intro d name
    by_cases h : d.isEmpty <;> simp [qualifyName, domainTruthy, domainChars, h]

lemma is_valid_name_chars {n : List Char} (h : is_valid_name n = true) :
    ∀ c ∈ n, isValidNameChar c = true := by
  intro c hc
  unfold is_valid_name at h
  by_cases h1 : n.isEmpty
  · rw [if_pos h1] at h; exact absurd h Bool.false_ne_true
  · rw [if_neg h1] at h
    by_cases h2 : n.all Char.isDigit
    · rw [if_pos h2] at h; exact absurd h Bool.false_ne_true
    · rw [if_neg h2] at h
      exact List.all_eq_true.mp h c hc

lemma is_valid_name_no_colon {n : List Char} (h : is_valid_name n = true) : ':' ∉ n := by
  intro hmem
  have := is_valid_name_chars h ':' hmem
  exact absurd this (by decide)

lemma posix_perms_mem {p : List Char} {d : Bool} {c : Char}
    (h : c ∈ posix_to_nfs4_perms p d) : c = 'r' ∨ c = 'w' ∨ c = 'x' := by
  unfold posix_to_nfs4_perms at h
  by_cases h0 : p = ['-', '-', '-']
  · rw [if_pos h0] at h; simp at h
  · rw [if_neg h0] at h
    rcases List.mem_append.mp h with h1 | h1
    · rcases List.mem_append.mp h1 with h2 | h2
      · by_cases hr : 'r' ∈ p
        · rw [if_pos hr] at h2; exact Or.inl (List.mem_singleton.mp h2)
        · rw [if_neg hr] at h2; simp at h2
      · by_cases hw : 'w' ∈ p
        · rw [if_pos hw] at h2; exact Or.inr (Or.inl (List.mem_singleton.mp h2))
        · rw [if_neg hw] at h2; simp at h2
    · by_cases hx : 'x' ∈ p
      · rw [if_pos hx] at h1; exact Or.inr (Or.inr (List.mem_singleton.mp h1))
      · rw [if_neg hx] at h1; simp at h1

lemma qualifyName_no_colon {domain : Option (List Char)} {n : List Char}
    (hd : ∀ d, domain = some d → ':' ∉ d) (hn : is_valid_name n = true) :
    ∀ c ∈ qualifyName domain n, c ≠ ':' := by
  intro c hc hceq
  subst hceq
  unfold qualifyName at hc
  by_cases ht : domainTruthy domain
  · rw [if_pos ht] at hc
    rcases List.mem_append.mp hc with h1 | h1
    · exact is_valid_name_no_colon hn h1
    · rcases List.mem_cons.mp h1 with h2 | h2
      · exact absurd h2 (by decide)
      · cases domain with
        | none => exact absurd ht (by simp [domainTruthy])
        | some d => exact hd d rfl (by simpa [domainChars] using h2)
  · rw [if_neg ht] at hc
    exact is_valid_name_no_colon hn hc

/-- C9: for every acquired ACL set and every configured domain suffix with
no `:` character, every entry emitted by the translator passes the entry
validator (the validator's shape and alphabet cover everything the
translator can produce). -/
theorem translator_output_validates :
    ∀ (domain : Option (List Char)) (isDir : Bool) (acl : AclSet),
      (∀ d, domain = some d → ':' ∉ d) →
      ∀ e ∈ convert_posix_to_nfs4 domain isDir acl, validate_nfs4_acl e = true := by
  intro domain isDir acl hd e he
  rcases List.mem_append.mp he with h | h
  · obtain ⟨entry, _, htr⟩ := List.mem_filterMap.mp h
    unfold translateUserEntry at htr
    by_cases h1 : is_valid_name entry.name
    · rw [if_neg (by simp [h1])] at htr
      by_cases h2 : (posix_to_nfs4_perms entry.perms isDir).isEmpty
      · rw [if_pos h2] at htr; exact absurd htr (by simp)
      · rw [if_neg h2] at htr
        have he' := Option.some.inj htr
        rw [← he']
        rw [validate_nfs4_acl_iff]
        refine ⟨'A', [], qualifyName domain entry.name,
          posix_to_nfs4_perms entry.perms isDir, [], by simp, Or.inl rfl,
          Or.inl rfl, qualifyName_no_colon hd h1, ?_, Or.inl rfl⟩
        intro c hc
        rcases posix_perms_mem hc with h3 | h3 | h3 <;> subst h3 <;> decide
    · rw [if_pos (by simp [h1])] at htr; exact absurd htr (by simp)
  · obtain ⟨entry, _, htr⟩ := List.mem_filterMap.mp h
    unfold translateGroupEntry at htr
    by_cases h1 : is_valid_name entry.name
    · rw [if_neg (by simp [h1])] at htr
      by_cases h2 : (posix_to_nfs4_perms entry.perms isDir).isEmpty
      · rw [if_pos h2] at htr; exact absurd htr (by simp)
      · rw [if_neg h2] at htr
        have he' := Option.some.inj htr
        rw [← he']
        rw [validate_nfs4_acl_iff]
        refine ⟨'A', ['g'], qualifyName domain entry.name,
          posix_to_nfs4_perms entry.perms isDir, [], by simp, Or.inl rfl,
          Or.inr (Or.inr rfl), qualifyName_no_colon hd h1, ?_, Or.inl rfl⟩
        intro c hc
        rcases posix_perms_mem hc with h3 | h3 | h3 <;> subst h3 <;> decide
    · rw [if_pos (by simp [h1])] at htr; exact absurd htr (by simp)

/-- Witness for C9: the translator's output on the concrete `mary` ACL with
domain `example.com` is accepted by the validator. -/
theorem translator_output_validates_witness :
    validate_nfs4_acl "A::mary@example.com:rwx".data = true :=
  translator_output_validates (some "example.com".data) false maryAcl
    (fun d hd => by
      injection hd with hd'
      rw [← hd']
      decide)
    "A::mary@example.com:rwx".data (by decide)

/-- C2: `_is_already_migrated` returns true exactly when incremental mode
is on, a ledger row for the path exists with status `success`, and the
stored mtime is within `0.001` of the given one; when it returns true the
per-file workflow returns the skip outcome with an unchanged ledger and no
external mutation call; and an mtime change of `1.0` always defeats the
skip. -/
theorem incremental_skip_characterisation :
    (∀ (inc : Bool) (ledger : Ledger) (path : List Char) (m : ℚ),
      is_already_migrated inc ledger path m = true ↔
        (inc = true ∧ ∃ r, ledgerLookup ledger path = some r ∧
          r.status = successStatus ∧ |r.mtime - m| < 1 / 1000)) ∧
    (∀ (cfg : Config) (env : WorkEnv) (ledger : Ledger) (m : ℚ),
      env.destExists = Except.ok true → env.sourceMtime = Except.ok m →
      is_already_migrated cfg.incremental ledger env.sourcePath m = true →
      migrate_file_acl cfg env ledger = ⟨(env.sourcePath, true, skippedMsg), ledger, []⟩) ∧
    (∀ (inc : Bool) (ledger : Ledger) (path : List Char) (r : MigrationRecord),
      ledgerLookup ledger path = some r →
      is_already_migrated inc ledger path (r.mtime + 1) = false) := by
  refine ⟨?_, ?_, ?_⟩
  · intro inc ledger path m
    unfold is_already_migrated
    cases inc with
    | false => simp
    | true =>
      simp only [Bool.not_true, Bool.false_eq_true, if_false]
      cases hl : ledgerLookup ledger path with
      | none => simp
      | some r =>
        by_cases hs : r.status = successStatus
        · simp [hs, decide_eq_true_iff]
        · simp [hs]
  · intro cfg env ledger m h1 h2 h3
    unfold migrate_file_acl migrate_file_body
    simp [h1, h2, h3]
  · intro inc ledger path r hl
    unfold is_already_migrated
    cases inc with
    | false => simp
    | true =>
      simp only [Bool.not_true, Bool.false_eq_true, if_false, hl]
      by_cases hs : r.status = successStatus
      · have habs : |r.mtime - (r.mtime + 1)| = 1 := by
          have hsub : r.mtime - (r.mtime + 1) = -1 := by ring
          rw [hsub, abs_neg, abs_one]
        rw [if_pos hs, habs, decide_eq_false_iff_not]
        norm_num
      · rw [if_neg hs]

/-- A ledger row recording a prior successful migration at mtime 5. -/
def witnessRecord : MigrationRecord :=
  ⟨"/fsx/data/file1".data, 5, [], successStatus⟩

/-- A ledger with exactly that row. -/
def witnessLedger : Ledger := [("/lustre/data/file1".data, witnessRecord)]

/-- A per-file environment matching the recorded path and mtime. -/
def witnessEnvSkip : WorkEnv :=
  { sourcePath := "/lustre/data/file1".data, destPath := "/fsx/data/file1".data,
    isDir := false, destExists := Except.ok true, sourceMtime := Except.ok 5,
    ownershipNeeded := false, chownOk := true, queryExitOk := true,
    aclOutputLines := [], ownerName := [], groupName := [],
    applyOk := fun _ => true }

/-- An incremental-mode configuration. -/
def cfgIncremental : Config := ⟨true, false, none⟩

/-- Witness for C2: a concrete unchanged file is skipped with no mutation
call, and bumping the recorded mtime by 1.0 defeats the skip. -/
theorem incremental_skip_witness :
    migrate_file_acl cfgIncremental witnessEnvSkip witnessLedger =
      ⟨(witnessEnvSkip.sourcePath, true, skippedMsg), witnessLedger, []⟩ ∧
    is_already_migrated true witnessLedger "/lustre/data/file1".data
      (witnessRecord.mtime + 1) = false := by
  constructor
  · have hskip : is_already_migrated cfgIncremental.incremental witnessLedger
        witnessEnvSkip.sourcePath 5 = true := by
      rw [incremental_skip_characterisation.1]
      refine ⟨rfl, witnessRecord, by decide, rfl, ?_⟩
      show |witnessRecord.mtime - 5| < 1 / 1000
      norm_num [witnessRecord]
    exact incremental_skip_characterisation.2.1 cfgIncremental witnessEnvSkip
      witnessLedger 5 rfl rfl hskip
  · exact incremental_skip_characterisation.2.2 true witnessLedger
      "/lustre/data/file1".data witnessRecord (by decide)

lemma migrate_file_acl_attempt (cfg : Config) (env : WorkEnv) (ledger : Ledger) (m : ℚ)
    (h1 : env.destExists = Except.ok true) (h2 : env.sourceMtime = Except.ok m)
    (h3 : is_already_migrated cfg.incremental ledger env.sourcePath m = false) :
    migrate_file_acl cfg env ledger = migrate_attempt cfg env ledger m := by
  unfold migrate_file_acl migrate_file_body
  simp [h1, h2, h3]

/-- C3 (amended): after every per-path workflow that finds the destination,
reads the source mtime without an exception, and is not skipped, a ledger
row keyed by the source path is upserted, holding the destination path,
the source mtime, the fingerprint of the acquired ACL set, and a status
that is `success` exactly when the reported outcome succeeded. -/
theorem ledger_upsert_after_attempt :
    ∀ (cfg : Config) (env : WorkEnv) (ledger : Ledger) (m : ℚ),
      env.destExists = Except.ok true → env.sourceMtime = Except.ok m →
      is_already_migrated cfg.incremental ledger env.sourcePath m = false →
      ∃ rec : MigrationRecord,
        (migrate_file_acl cfg env ledger).ledger = ledgerUpsert ledger env.sourcePath rec ∧
        rec.dest_path = env.destPath ∧
        rec.mtime = m ∧
        rec.acl_hash = acl_hash_of
          (get_posix_acl env.queryExitOk env.aclOutputLines env.ownerName env.groupName) ∧
        rec.status = (if (migrate_file_acl cfg env ledger).outcome.2.1
          then successStatus else failedStatus) := by
  intro cfg env ledger m h1 h2 h3
  rw [migrate_file_acl_attempt cfg env ledger m h1 h2 h3]
  exact ⟨⟨env.destPath, m,
    acl_hash_of (get_posix_acl env.queryExitOk env.aclOutputLines env.ownerName env.groupName),
    if (migrate_attempt cfg env ledger m).outcome.2.1 then successStatus else failedStatus⟩,
    rfl, rfl, rfl, rfl, rfl⟩

/-- A configuration with incremental mode and ownership migration off. -/
def cfgPlain : Config := ⟨false, false, none⟩

/-- A per-file environment whose computed destination does not exist. -/
def envDestMissing : WorkEnv :=
  { sourcePath := "/lustre/data/gone".data, destPath := "/fsx/data/gone".data,
    isDir := false, destExists := Except.ok false, sourceMtime := Except.ok 5,
    ownershipNeeded := false, chownOk := true, queryExitOk := true,
    aclOutputLines := [], ownerName := [], groupName := [],
    applyOk := fun _ => true }

/-- Counterexample for C3 as stated: the destination-missing workflow does
not end in a skip (it is a per-file failure), yet no ledger record is
created or overwritten — the ledger stays empty. -/
theorem ledger_upsert_counterexample :
    (migrate_file_acl cfgPlain envDestMissing []).outcome =
      ("/lustre/data/gone".data, false, destMissingMsg) ∧
    destMissingMsg ≠ skippedMsg ∧
    (migrate_file_acl cfgPlain envDestMissing []).ledger = [] :=
  ⟨rfl, by decide, rfl⟩

/-- Witness for C3 (amended): a concrete attempt whose ledger is the upsert
described by the theorem. -/
theorem ledger_upsert_after_attempt_witness :
    ∃ rec : MigrationRecord,
      (migrate_file_acl cfgPlain witnessEnvSkip []).ledger =
        ledgerUpsert [] witnessEnvSkip.sourcePath rec ∧
      rec.dest_path = witnessEnvSkip.destPath ∧
      rec.mtime = 5 ∧
      rec.acl_hash = acl_hash_of
        (get_posix_acl witnessEnvSkip.queryExitOk witnessEnvSkip.aclOutputLines
          witnessEnvSkip.ownerName witnessEnvSkip.groupName) ∧
      rec.status = (if (migrate_file_acl cfgPlain witnessEnvSkip []).outcome.2.1
        then successStatus else failedStatus) :=
  ledger_upsert_after_attempt cfgPlain witnessEnvSkip [] 5 rfl rfl rfl

lemma run_migration_length :
    ∀ (cfg : Config) (envs : List WorkEnv) (ledger : Ledger),
      (run_migration cfg ledger envs).1.length = envs.length := by
  intro cfg envs
  induction envs with
  | nil => intro ledger; rfl
  | cons e rest ih => intro ledger; simp [run_migration, ih]

/-- C1 (amended): when acquiring the source ACL fails (the query primitive
exits non-zero), the error is only logged — the file is treated as having
nothing to migrate: with ownership migration disabled the attempt is
recorded in the ledger with status `success` and an empty fingerprint,
the outcome is reported as a successful `无需迁移` no-op, and the overall
run continues with the remaining files (every work-list entry yields an
outcome). -/
theorem acquisition_failure_behaviour :
    (∀ (cfg : Config) (env : WorkEnv) (ledger : Ledger) (m : ℚ),
      cfg.migrate_ownership = false → env.queryExitOk = false →
      env.destExists = Except.ok true → env.sourceMtime = Except.ok m →
      is_already_migrated cfg.incremental ledger env.sourcePath m = false →
      migrate_file_acl cfg env ledger =
        ⟨(env.sourcePath, true, nothingToMigrateMsg),
         ledgerUpsert ledger env.sourcePath ⟨env.destPath, m, [], successStatus⟩, []⟩) ∧
    (∀ (cfg : Config) (envs : List WorkEnv) (ledger : Ledger),
      (run_migration cfg ledger envs).1.length = envs.length) := by
  refine ⟨?_, run_migration_length⟩
  intro cfg env ledger m hown hq h1 h2 h3
  rw [migrate_file_acl_attempt cfg env ledger m h1 h2 h3]
  unfold migrate_attempt
  simp [hq, hown, get_posix_acl, acl_hash_of, successMessage, record_migration]

/-- A per-file environment where the ACL query primitive exits non-zero. -/
def envAcqFail : WorkEnv :=
  { sourcePath := "/lustre/data/file2".data, destPath := "/fsx/data/file2".data,
    isDir := false, destExists := Except.ok true, sourceMtime := Except.ok 5,
    ownershipNeeded := false, chownOk := true, queryExitOk := false,
    aclOutputLines := [], ownerName := [], groupName := [],
    applyOk := fun _ => true }

/-- Counterexample for C1 as stated: with the query primitive failing, the
file is reported as a success (not a per-file failure) and the ledger row
carries status `success`, not `failed`. -/
theorem acquisition_failure_counterexample :
    (migrate_file_acl cfgPlain envAcqFail []).outcome.2.1 = true ∧
    (migrate_file_acl cfgPlain envAcqFail []).outcome.2.2 = nothingToMigrateMsg ∧
    ledgerLookup (migrate_file_acl cfgPlain envAcqFail []).ledger
      envAcqFail.sourcePath =
      some ⟨envAcqFail.destPath, 5, [], successStatus⟩ ∧
    successStatus ≠ failedStatus :=
  ⟨rfl, rfl, by decide, by decide⟩

/-- Witness for C1 (amended): the concrete failed-acquisition environment
realises the theorem's hypotheses. -/
theorem acquisition_failure_behaviour_witness :
    migrate_file_acl cfgPlain envAcqFail [] =
      ⟨(envAcqFail.sourcePath, true, nothingToMigrateMsg),
       ledgerUpsert [] envAcqFail.sourcePath
         ⟨envAcqFail.destPath, 5, [], successStatus⟩, []⟩ ∧
    (run_migration cfgPlain [] [envAcqFail, envDestMissing]).1.length = 2 :=
  ⟨acquisition_failure_behaviour.1 cfgPlain envAcqFail [] 5 rfl rfl rfl rfl rfl,
   acquisition_failure_behaviour.2 cfgPlain [envAcqFail, envDestMissing] []⟩

lemma apply_acl_individually_eq (applyOk : List Char → Bool) :
    ∀ l : List (List Char),
      apply_acl_individually applyOk l =
        (l.all applyOk, l.takeWhile applyOk ++ (l.dropWhile applyOk).take 1) := by
  intro l
  induction l with
  | nil => rfl
  | cons a rest ih =>
    by_cases h : applyOk a
    · simp [apply_acl_individually, h, ih, List.takeWhile_cons, List.dropWhile_cons]
    · simp [apply_acl_individually, h, List.takeWhile_cons, List.dropWhile_cons]

/-- C5: the applier is a no-op success on an empty list; on a validated
list it invokes the mutation primitive once per entry in list order up to
and including the first failing entry, succeeding exactly when every call
succeeds — earlier entries stay applied, later ones are never attempted;
and a failing file with ownership migration disabled reports exactly
`迁移失败: ACL` (only the ACL component). -/
theorem acl_applier_characterisation :
    (∀ applyOk : List Char → Bool, apply_nfs4_acl applyOk [] = (true, [])) ∧
    (∀ (applyOk : List Char → Bool) (acls : List (List Char)),
      (∀ a ∈ acls, validate_nfs4_acl a = true) →
      apply_nfs4_acl applyOk acls =
        (acls.all applyOk,
         acls.takeWhile applyOk ++ (acls.dropWhile applyOk).take 1)) ∧
    (∀ (cfg : Config) (env : WorkEnv) (ledger : Ledger) (m : ℚ),
      cfg.migrate_ownership = false →
      env.destExists = Except.ok true → env.sourceMtime = Except.ok m →
      is_already_migrated cfg.incremental ledger env.sourcePath m = false →
      (migrate_file_acl cfg env ledger).outcome.2.1 = false →
      (migrate_file_acl cfg env ledger).outcome.2.2 = "迁移失败: ACL".data) := by
  refine ⟨fun _ => rfl, ?_, ?_⟩
  · intro applyOk acls hv
    unfold apply_nfs4_acl
    cases hE : acls.isEmpty with
    | true =>
      have : acls = [] := List.isEmpty_iff.mp hE
      subst this; rfl
    | false =>
      have hall : acls.all validate_nfs4_acl = true := List.all_eq_true.mpr hv
      simp only [hE, hall, Bool.false_eq_true, if_false, if_true]
      exact apply_acl_individually_eq applyOk acls
  · intro cfg env ledger m hown h1 h2 h3 hfail
    rw [migrate_file_acl_attempt cfg env ledger m h1 h2 h3] at hfail ⊢
    revert hfail
    unfold migrate_attempt
    simp only [hown, Bool.false_eq_true, if_false, Bool.true_and]
    intro hfail
    rw [hfail, if_neg Bool.false_ne_true]
    decide

/-- A per-file environment with two translatable entries whose second
mutation call fails. -/
def envApplyFail : WorkEnv :=
  { sourcePath := "/lustre/data/file3".data, destPath := "/fsx/data/file3".data,
    isDir := false, destExists := Except.ok true, sourceMtime := Except.ok 5,
    ownershipNeeded := false, chownOk := true, queryExitOk := true,
    aclOutputLines := ["user:peter:rwx".data, "group:dev1:rw-".data],
    ownerName := "root".data, groupName := "root".data,
    applyOk := fun a => decide (a = "A::peter:rwx".data) }

/-- Witness for C5: applying two valid entries where the second call fails
issues exactly the two calls in order (the first stays applied, nothing
is rolled back), returns failure, and the per-file message names only the
ACL component. -/
theorem acl_applier_characterisation_witness :
    apply_nfs4_acl (fun a => decide (a = "A::peter:rwx".data))
      ["A::peter:rwx".data, "A:g:dev1:rw".data] =
      (false, ["A::peter:rwx".data, "A:g:dev1:rw".data]) ∧
    (migrate_file_acl cfgPlain envApplyFail []).outcome.2.2 = "迁移失败: ACL".data := by
  constructor
  · exact (acl_applier_characterisation.2.1
      (fun a => decide (a = "A::peter:rwx".data))
      ["A::peter:rwx".data, "A:g:dev1:rw".data] (by decide)).trans (by decide)
  · exact acl_applier_characterisation.2.2 cfgPlain envApplyFail [] 5
      rfl rfl rfl rfl (by decide)

/-- C8: any exception escaping the per-path workflow body is caught and
converted into a failed outcome whose detail string is the exception
text; in particular an exception from the destination-existence check or
the mtime read yields that failed outcome with the ledger untouched and
no external call, and the worker always returns an outcome (it is a total
function, so the tree walk is never aborted). -/
theorem exception_conversion :
    (∀ (cfg : Config) (env : WorkEnv) (ledger : Ledger) (e : List Char)
       (l : Ledger) (calls : List ExtCall),
      migrate_file_body cfg env ledger = (Except.error e, l, calls) →
      migrate_file_acl cfg env ledger = ⟨(env.sourcePath, false, e), l, calls⟩) ∧
    (∀ (cfg : Config) (env : WorkEnv) (ledger : Ledger) (e : List Char),
      env.destExists = Except.error e →
      migrate_file_acl cfg env ledger = ⟨(env.sourcePath, false, e), ledger, []⟩) ∧
    (∀ (cfg : Config) (env : WorkEnv) (ledger : Ledger) (e : List Char),
      env.destExists = Except.ok true → env.sourceMtime = Except.error e →
      migrate_file_acl cfg env ledger = ⟨(env.sourcePath, false, e), ledger, []⟩) := by
  refine ⟨?_, ?_, ?_⟩
  · intro cfg env ledger e l calls h
    unfold migrate_file_acl
    rw [h]
  · intro cfg env ledger e h
    unfold migrate_file_acl migrate_file_body
    rw [h]
  · intro cfg env ledger e h1 h2
    unfold migrate_file_acl migrate_file_body
    rw [h1]
    simp only [Bool.not_true, Bool.false_eq_true, if_false, h2]

/-- A per-file environment whose destination-existence check raises. -/
def envRaise : WorkEnv :=
  { sourcePath := "/lustre/data/file4".data, destPath := "/fsx/data/file4".data,
    isDir := false, destExists := Except.error "Permission denied".data,
    sourceMtime := Except.ok 5, ownershipNeeded := false, chownOk := true,
    queryExitOk := true, aclOutputLines := [], ownerName := [], groupName := [],
    applyOk := fun _ => true }

/-- Witness for C8: a concrete raising workflow is converted into a failed
outcome carrying the exception text. -/
theorem exception_conversion_witness :
    migrate_file_acl cfgPlain envRaise [] =
      ⟨(envRaise.sourcePath, false, "Permission denied".data), [], []⟩ :=
  exception_conversion.1 cfgPlain envRaise [] "Permission denied".data [] [] rfl

lemma walkEntries_mem (p : List (List Char)) (cs : List FSTree) (x : List (List Char)) :
    x ∈ walkEntries p cs ↔ ∃ c ∈ cs, x = p ++ [c.nodeName] := by
  unfold walkEntries
  rw [List.mem_append]
  constructor
  · rintro (h | h) <;>
      · obtain ⟨c, hc, rfl⟩ := List.mem_map.mp h
        exact ⟨c, (List.mem_filter.mp hc).1, rfl⟩
  · rintro ⟨c, hc, rfl⟩
    cases hd : c.isDirNode with
    | true =>
      exact Or.inl (List.mem_map.mpr ⟨c, List.mem_filter.mpr ⟨hc, hd⟩, rfl⟩)
    | false =>
      exact Or.inr (List.mem_map.mpr ⟨c, List.mem_filter.mpr ⟨hc, by simp [hd]⟩, rfl⟩)

lemma scanWalkChildren_mem (p : List (List Char)) (cs : List FSTree) (x : List (List Char)) :
    x ∈ scanWalkChildren p cs ↔ ∃ c ∈ cs, x ∈ scanWalk (p ++ [c.nodeName]) c := by
  induction cs with
  | nil => simp [scanWalkChildren]
  | cons c cs ih =>
    rw [scanWalkChildren, List.mem_append, ih]
    constructor
    · rintro (h | ⟨d, hd, hx⟩)
      · exact ⟨c, List.mem_cons_self c cs, h⟩
      · exact ⟨d, List.mem_cons_of_mem c hd, hx⟩
    · rintro ⟨d, hd, hx⟩
      rcases List.mem_cons.mp hd with h1 | h1
      · subst h1; exact Or.inl hx
      · exact Or.inr ⟨d, h1, hx⟩

lemma strictDescList_mem (p : List (List Char)) (cs : List FSTree) (x : List (List Char)) :
    x ∈ strictDescList p cs ↔
      ∃ c ∈ cs, (x = p ++ [c.nodeName] ∨ x ∈ strictDescendants (p ++ [c.nodeName]) c) := by
  induction cs with
  | nil => simp [strictDescList]
  | cons c cs ih =>
    rw [strictDescList, List.mem_cons, List.mem_append, ih]
    constructor
    · rintro (h | h | ⟨d, hd, hx⟩)
      · exact ⟨c, List.mem_cons_self c cs, Or.inl h⟩
      · exact ⟨c, List.mem_cons_self c cs, Or.inr h⟩
      · exact ⟨d, List.mem_cons_of_mem c hd, hx⟩
    · rintro ⟨d, hd, hx⟩
      rcases List.mem_cons.mp hd with h1 | h1
      · subst h1
        rcases hx with h2 | h2
        · exact Or.inl h2
        · exact Or.inr (Or.inl h2)
      · exact Or.inr (Or.inr ⟨d, h1, hx⟩)

lemma scanWalk_mem_iff : ∀ (t : FSTree) (p x : List (List Char)),
    x ∈ scanWalk p t ↔ x ∈ strictDescendants p t
  | FSTree.file _, p, x => by
    simp [scanWalk, strictDescendants]
  | FSTree.dir n cs, p, x => by
    rw [scanWalk, strictDescendants, List.mem_append, walkEntries_mem,
      scanWalkChildren_mem, strictDescList_mem]
    constructor
    · rintro (⟨c, hc, rfl⟩ | ⟨c, hc, hx⟩)
      · exact ⟨c, hc, Or.inl rfl⟩
      · exact ⟨c, hc, Or.inr ((scanWalk_mem_iff c (p ++ [c.nodeName]) x).mp hx)⟩
    · rintro ⟨c, hc, rfl | hx⟩
      · exact Or.inl ⟨c, hc, rfl⟩
      · exact Or.inr ⟨c, hc, (scanWalk_mem_iff c (p ++ [c.nodeName]) x).mpr hx⟩
  termination_by t => sizeOf t
  decreasing_by
    all_goals
      have hlt := List.sizeOf_lt_of_mem hc
      simp only [FSTree.dir.sizeOf_spec]
      omega

lemma strictDescendants_longer : ∀ (t : FSTree) (p x : List (List Char)),
    x ∈ strictDescendants p t → p.length < x.length
  | FSTree.file _, p, x => by
    simp [strictDescendants]
  | FSTree.dir n cs, p, x => by
    rw [strictDescendants, strictDescList_mem]
    rintro ⟨c, hc, rfl | hx⟩
    · simp
    · have h1 := strictDescendants_longer c (p ++ [c.nodeName]) x hx
      simp only [List.length_append, List.length_singleton] at h1
      omega
  termination_by t => sizeOf t
  decreasing_by
    have hlt := List.sizeOf_lt_of_mem hc
    simp only [FSTree.dir.sizeOf_spec]
    omega

/-- C10: in single-file mode the work list is exactly the given source
file; in directory mode the `os.walk` collection contains a path exactly
when it lies strictly below the source root (every file and every
subdirectory, directories as entries of their own), and every collected
path is strictly longer than the root path — so the source root itself is
never in the work list. -/
theorem scan_files_characterisation :
    (∀ (p : List (List Char)) (n : List Char), scan_files p (FSTree.file n) = [p]) ∧
    (∀ (p : List (List Char)) (n : List Char) (cs : List FSTree) (x : List (List Char)),
      x ∈ scan_files p (FSTree.dir n cs) ↔ x ∈ strictDescendants p (FSTree.dir n cs)) ∧
    (∀ (p : List (List Char)) (n : List Char) (cs : List FSTree),
      (scan_files p (FSTree.dir n cs)).all (fun x => decide (p.length < x.length)) = true) := by
  refine ⟨fun _ _ => rfl, ?_, ?_⟩
  · intro p n cs x
    exact scanWalk_mem_iff (FSTree.dir n cs) p x
  · intro p n cs
    rw [List.all_eq_true]
    intro x hx
    exact decide_eq_true
      (strictDescendants_longer (FSTree.dir n cs) p x
        ((scanWalk_mem_iff (FSTree.dir n cs) p x).mp hx))

end ACLMigration
